import Mathlib

/-!
Verification of the chatbot flow-builder graph core.

The development shallowly embeds the flow-graph model and its operations:
edges and message nodes, the cycle-detecting depth-first search
(`wouldCreateCycle`), the connection validator (`onConnect`), the
connectivity predicate (`areAllNodesConnected`), node creation, update and
cascade deletion, clear-all, and the save gate (`saveChanges`).  Stateful
React handlers are modelled as explicit state transformers on `AppState`;
toast messages become the `ConnectResult` / `SaveResult` outcome values.

Modelling notes:
* Node `position` (two floating-point screen coordinates produced by
  `Math.random`, used only for layout) and the constant `type` tag are
  omitted from `NodeRec`; no property below mentions them.
* The nullable `source`/`target` strings of a candidate connection are
  modelled as `String`, with the empty string standing for a missing
  (null/empty, i.e. JavaScript-falsy) endpoint id.
* The recursive `hasPath` closure is embedded with explicit fuel; the fuel
  `edges.length + 2` is shown sufficient (`hasPathVisit_fuel_stable`).
-/

namespace FlowGraph

/-- An edge record of the flow graph, as stored in the `edges` state:
identifier, source/target node ids and the optional handle ids. -/
structure Edge where
  id : String
  source : String
  sourceHandle : Option String
  target : String
  targetHandle : Option String
  deriving DecidableEq, Repr

/-- A message node of the flow graph: its id and the message text
(`data.message` in the source). -/
structure NodeRec where
  id : String
  message : String
  deriving DecidableEq, Repr

/-- A candidate connection delivered by the edit surface to `onConnect`. -/
structure Connection where
  source : String
  sourceHandle : Option String
  target : String
  targetHandle : Option String
  deriving DecidableEq, Repr

/-- The finite set of target node ids appearing in an edge list; every node
the depth-first search can ever mark visited below its start lies here. -/
def targetsOf (edges : List Edge) : Finset String :=
  (edges.map Edge.target).toFinset

/-- The `for (const edge of outgoingEdges)` loop of the `hasPath` closure,
generic in the recursive visit: try each outgoing edge in order,
short-circuiting on the first `true`, threading the mutated `visited` set
between iterations. -/
def hasPathFold (visit : String → Finset String → Bool × Finset String) :
    List Edge → Finset String → Bool × Finset String
  | [], visited => (false, visited)
  | e :: rest, visited =>
    match visit e.target visited with
    | (true, visited') => (true, visited')
    | (false, visited') => hasPathFold visit rest visited'

/-- The body of the `hasPath` closure inside `wouldCreateCycle`: visit node
`fr` searching for `dst`, with the shared `visited` set threaded through and
returned.  `hasPath(from, to)` returns true when `from === to`, false when
`from` is already visited, and otherwise marks `from` and scans its outgoing
edges.  Recursion is paid for with explicit fuel; fuel 0 aborts with
`false`, and `hasPathVisit_fuel_stable` shows enough fuel makes the branch
unreachable. -/
def hasPathVisit (edges : List Edge) :
    Nat → String → String → Finset String → Bool × Finset String
  | 0, _, _, visited => (false, visited)
  | fuel + 1, fr, dst, visited =>
    if fr = dst then (true, visited)
    else if fr ∈ visited then (false, visited)
    else
      hasPathFold (fun t v => hasPathVisit edges fuel t dst v)
        (edges.filter fun e => e.source == fr) (insert fr visited)

/-- `wouldCreateCycle(sourceId, targetId)`: run the depth-first search
`hasPath(targetId, sourceId)` over the existing edge set with an initially
empty visited set.  The fuel `edges.length + 2` bounds the recursion depth
(each nested visit marks a fresh node, and all marked nodes other than the
start are edge targets). -/
def wouldCreateCycle (edges : List Edge) (sourceId targetId : String) : Bool :=
  (hasPathVisit edges (edges.length + 2) targetId sourceId ∅).1

/-- The `connectedNodeIds` set built by `areAllNodesConnected`: every edge
contributes its source and its target. -/
def connectedNodeIds (edges : List Edge) : Finset String :=
  edges.foldl (fun s e => insert e.target (insert e.source s)) ∅

/-- One step of the flow relation: some edge runs from `x` to `y`. -/
def stepEdge (edges : List Edge) (x y : String) : Prop :=
  ∃ e ∈ edges, e.source = x ∧ e.target = y

/-- Zero-or-more-step reachability along the edge set. -/
def Reach (edges : List Edge) : String → String → Prop :=
  Relation.ReflTransGen (stepEdge edges)

/-- Acyclicity: no directed path from a node back to itself through one or
more edges, phrased as: no edge `x → y` with `y` reaching back to `x`. -/
def Acyclic (edges : List Edge) : Prop :=
  ∀ x y, stepEdge edges x y → ¬ Reach edges y x

/-- Fan-out bound: every `(sourceNodeId, sourceHandleId)` pair has at most
one edge. -/
def FanOut (edges : List Edge) : Prop :=
  ∀ (src : String) (h : Option String),
    (edges.filter fun e => e.source == src && e.sourceHandle == h).length ≤ 1

/-- The whole mutable application state: node list, edge list, the
monotonic node-id counter, the two mutually exclusive selections, the
settings-panel text field and its visibility flag.  The persisted copies
(`persistedNodes`, `persistedEdges`) always receive the same values as the
in-memory ones and are not duplicated here. -/
structure AppState where
  nodes : List NodeRec
  edges : List Edge
  counter : Nat
  selectedNodeId : Option String
  selectedEdgeId : Option String
  messageText : String
  showSettings : Bool
  deriving DecidableEq, Repr

/-- The default node list: the single welcome node with id `"1"`. -/
def defaultNodes : List NodeRec :=
  [{ id := "1", message := "Hello! Welcome to our Bitespeed." }]

/-- The state the application boots into with empty storage: the default
node, no edges, the counter at its default next value 2, nothing
selected. -/
def initialState : AppState :=
  { nodes := defaultNodes, edges := [], counter := 2,
    selectedNodeId := none, selectedEdgeId := none,
    messageText := "", showSettings := false }

/-- The outcome of an `onConnect` call, one constructor per exit path of
the handler: the silent guard on falsy endpoints, the three toast
rejections, and acceptance. -/
inductive ConnectResult where
  | accepted
  | rejectedSilent
  | selfLoop
  | handleAlreadyConnected
  | wouldCycle
  deriving DecidableEq, Repr

/-- The outcome of a `saveChanges` call: the success toast or the
"Cannot save!" toast. -/
inductive SaveResult where
  | saved
  | blocked
  deriving DecidableEq, Repr

/-- Modelled from the spec: the `addEdge` helper comes from the flow
library, which is not part of this repository; per the spec, on acceptance
"the edge is assigned a fresh unique id and appended".  The id is derived
from the candidate's endpoints and handles the way the library derives it. -/
def addEdgeLib (c : Connection) (edges : List Edge) : List Edge :=
  edges ++ [{ id := "xy-edge__" ++ c.source ++ c.sourceHandle.getD ""
                ++ "-" ++ c.target ++ c.targetHandle.getD "",
              source := c.source, sourceHandle := c.sourceHandle,
              target := c.target, targetHandle := c.targetHandle }]

/-- The `onConnect` handler: guard on falsy endpoint ids, reject
self-connections, reject a source handle that already has an outgoing
edge, reject connections that would create a cycle, otherwise append the
new edge.  Returns the new state and the outcome. -/
def onConnect (s : AppState) (c : Connection) : AppState × ConnectResult :=
  if c.source = "" ∨ c.target = "" then (s, .rejectedSilent)
  else if c.source = c.target then (s, .selfLoop)
  else if s.edges.any fun e =>
      e.source == c.source && e.sourceHandle == c.sourceHandle then
    (s, .handleAlreadyConnected)
  else if wouldCreateCycle s.edges c.source c.target then (s, .wouldCycle)
  else ({ s with edges := addEdgeLib c s.edges }, .accepted)

/-- `areAllNodesConnected`: true for at most one node, otherwise every
node id must lie in the set of edge endpoints. -/
def areAllNodesConnected (s : AppState) : Bool :=
  if s.nodes.length ≤ 1 then true
  else s.nodes.all fun n => n.id ∈ connectedNodeIds s.edges

/-- `createMessageNode`: no-op when the trimmed message text is empty;
otherwise append a node whose id is the counter rendered in decimal,
increment the counter and clear the text field. -/
def createMessageNode (s : AppState) : AppState :=
  if s.messageText.trim = "" then s
  else
    { s with
      nodes := s.nodes ++ [{ id := toString s.counter, message := s.messageText }],
      counter := s.counter + 1,
      messageText := "" }

/-- `updateSelectedNode`: the guard `if (!selectedNodeId || !messageText.trim())
return` no-ops when the selection is null *or the empty string* (both are
falsy) or the trimmed text is empty; otherwise replace only the selected
node's message and close the editor. -/
def updateSelectedNode (s : AppState) : AppState :=
  match s.selectedNodeId with
  | none => s
  | some sel =>
    if sel = "" then s
    else if s.messageText.trim = "" then s
    else
      { s with
        nodes := s.nodes.map fun n =>
          if n.id = sel then { n with message := s.messageText } else n,
        messageText := "", selectedNodeId := none, showSettings := false }

/-- `deleteSelectedNode`: the guard `if (!selectedNodeId) return` no-ops
when the selection is null *or the empty string* (both are falsy);
otherwise drop the node and every edge whose source or target is the
selected id, in the same commit, and clear the selection. -/
def deleteSelectedNode (s : AppState) : AppState :=
  match s.selectedNodeId with
  | none => s
  | some sel =>
    if sel = "" then s
    else
      { s with
        nodes := s.nodes.filter fun n => !(n.id == sel),
        edges := s.edges.filter fun e =>
          !(e.source == sel) && !(e.target == sel),
        selectedNodeId := none, showSettings := false, messageText := "" }

/-- `deleteSelectedEdge`: the guard `if (!selectedEdgeId) return` no-ops
when the selection is null *or the empty string* (both are falsy);
otherwise drop the edge with the selected id and clear the edge
selection. -/
def deleteSelectedEdge (s : AppState) : AppState :=
  match s.selectedEdgeId with
  | none => s
  | some sel =>
    if sel = "" then s
    else
      { s with
        edges := s.edges.filter fun e => !(e.id == sel),
        selectedEdgeId := none }

/-- `handleClearAll`: reset everything — default node list, no edges,
counter back to its default 2, selections and editor cleared. -/
def handleClearAll (_ : AppState) : AppState :=
  { nodes := defaultNodes, edges := [], counter := 2,
    selectedNodeId := none, selectedEdgeId := none,
    messageText := "", showSettings := false }

/-- `saveChanges`: toast the blocked message when not all nodes are
connected, otherwise toast success; no state field is written either
way. -/
def saveChanges (s : AppState) : AppState × SaveResult :=
  if areAllNodesConnected s then (s, .saved) else (s, .blocked)

/-- `onNodeClick`: select the clicked node, clear any edge selection, load
its message into the editor and open the panel. -/
def onNodeClick (s : AppState) (n : NodeRec) : AppState :=
  { s with selectedNodeId := some n.id, selectedEdgeId := none,
           messageText := n.message, showSettings := true }

/-- `onEdgeClick`: select the clicked edge and clear any node selection. -/
def onEdgeClick (s : AppState) (eid : String) : AppState :=
  { s with selectedEdgeId := some eid, selectedNodeId := none }

/-- The pane-click handler: clear both selections. -/
def onPaneClick (s : AppState) : AppState :=
  { s with selectedNodeId := none, selectedEdgeId := none }

/-- The textarea change handler: store the typed text. -/
def setMessageTextOp (s : AppState) (m : String) : AppState :=
  { s with messageText := m }

/-- The cancel button: close the panel, clear the node selection and the
text field. -/
def cancelEdit (s : AppState) : AppState :=
  { s with showSettings := false, selectedNodeId := none, messageText := "" }

/-- The panel toggle button: flip the settings-panel visibility. -/
def toggleSettings (s : AppState) : AppState :=
  { s with showSettings := !s.showSettings }

/-- A user intent delivered by the edit surface, one constructor per
handler wired into the component. -/
inductive Intent where
  | connect (c : Connection)
  | clickNode (n : NodeRec)
  | clickEdge (eid : String)
  | paneClick
  | typeMessage (m : String)
  | createNode
  | updateNode
  | deleteNode
  | deleteEdge
  | clearAll
  | save
  | cancel
  | togglePanel
  deriving DecidableEq, Repr

/-- Dispatch one intent to its handler (outcome messages dropped). -/
def applyIntent (s : AppState) : Intent → AppState
  | .connect c => (onConnect s c).1
  | .clickNode n => onNodeClick s n
  | .clickEdge eid => onEdgeClick s eid
  | .paneClick => onPaneClick s
  | .typeMessage m => setMessageTextOp s m
  | .createNode => createMessageNode s
  | .updateNode => updateSelectedNode s
  | .deleteNode => deleteSelectedNode s
  | .deleteEdge => deleteSelectedEdge s
  | .clearAll => handleClearAll s
  | .save => (saveChanges s).1
  | .cancel => cancelEdit s
  | .togglePanel => toggleSettings s

/-- Run a sequence of intents from a starting state. -/
def applyIntents (s : AppState) (l : List Intent) : AppState :=
  l.foldl applyIntent s

/-- Run a sequence of connect calls from a starting state, keeping the
committed states. -/
def applyConnects (s : AppState) (cs : List Connection) : AppState :=
  cs.foldl (fun s c => (onConnect s c).1) s

/-- The id-allocation invariant: node ids are pairwise distinct, and every
node id is the decimal rendering of a number strictly below the counter. -/
def GoodIds (s : AppState) : Prop :=
  (s.nodes.map NodeRec.id).Nodup ∧
  ∀ n ∈ s.nodes, ∃ k : Nat, n.id = toString k ∧ k < s.counter

/-- Enough fuel for the search to finish from `fr` with `v` already
visited: strictly more than the number of still-unvisited markable nodes. -/
def enoughFuel (edges : List Edge) (fuel : Nat) (fr : String)
    (v : Finset String) : Prop :=
  (insert fr (targetsOf edges) \ v).card + 1 ≤ fuel

/-- A sample edge from node "2" to node "3", used in concrete checks. -/
def e23 : Edge :=
  { id := "e23", source := "2", sourceHandle := none,
    target := "3", targetHandle := none }

/-- A sample state: nodes "2" and "3" joined by the edge `e23`. -/
def stChain : AppState :=
  { nodes := [⟨"2", "a"⟩, ⟨"3", "b"⟩], edges := [e23], counter := 4,
    selectedNodeId := none, selectedEdgeId := none,
    messageText := "", showSettings := false }

/-- A sample state: two nodes and no edges, so not fully connected. -/
def stTwoLoose : AppState :=
  { nodes := [⟨"1", "a"⟩, ⟨"2", "b"⟩], edges := [], counter := 3,
    selectedNodeId := none, selectedEdgeId := none,
    messageText := "", showSettings := false }

/-- The chain state with node "3" selected, ready for a cascade delete. -/
def stDel : AppState :=
  { stChain with selectedNodeId := some "3" }

/-- A degenerate state: a single node whose id is the empty string, with
that empty id selected.  The falsy guard `if (!selectedNodeId) return`
makes node deletion a no-op here. -/
def stEmptySel : AppState :=
  { nodes := [⟨"", "m"⟩], edges := [], counter := 2,
    selectedNodeId := some "", selectedEdgeId := none,
    messageText := "", showSettings := false }

section Lemmas

variable {edges : List Edge}

lemma updateSelectedNode_none (s : AppState)
    (h : s.selectedNodeId = none) : updateSelectedNode s = s := by
  unfold updateSelectedNode
  rw [h]

lemma updateSelectedNode_some (s : AppState) (sel : String)
    (h : s.selectedNodeId = some sel) :
    updateSelectedNode s
      = if sel = "" then s
        else if s.messageText.trim = "" then s
        else
          { s with
            nodes := s.nodes.map fun n =>
              if n.id = sel then { n with message := s.messageText } else n,
            messageText := "", selectedNodeId := none,
            showSettings := false } := by
  unfold updateSelectedNode
  rw [h]

lemma deleteSelectedNode_none (s : AppState)
    (h : s.selectedNodeId = none) : deleteSelectedNode s = s := by
  unfold deleteSelectedNode
  rw [h]

lemma deleteSelectedNode_some (s : AppState) (sel : String)
    (h : s.selectedNodeId = some sel) :
    deleteSelectedNode s
      = if sel = "" then s
        else
          { s with
            nodes := s.nodes.filter fun n => !(n.id == sel),
            edges := s.edges.filter fun e =>
              !(e.source == sel) && !(e.target == sel),
            selectedNodeId := none, showSettings := false,
            messageText := "" } := by
  unfold deleteSelectedNode
  rw [h]

lemma deleteSelectedEdge_none (s : AppState)
    (h : s.selectedEdgeId = none) : deleteSelectedEdge s = s := by
  unfold deleteSelectedEdge
  rw [h]

lemma deleteSelectedEdge_some (s : AppState) (sel : String)
    (h : s.selectedEdgeId = some sel) :
    deleteSelectedEdge s
      = if sel = "" then s
        else
          { s with
            edges := s.edges.filter fun e => !(e.id == sel),
            selectedEdgeId := none } := by
  unfold deleteSelectedEdge
  rw [h]

lemma mem_targetsOf {x : String} :
    x ∈ targetsOf edges ↔ ∃ e ∈ edges, e.target = x := by
  simp [targetsOf]

lemma targetsOf_card_le : (targetsOf edges).card ≤ edges.length := by
  calc (targetsOf edges).card ≤ (edges.map Edge.target).length :=
        List.toFinset_card_le _
    _ = edges.length := List.length_map _ _

lemma card_sdiff_insert_succ_le (U v : Finset String) (fr : String)
    (h : fr ∉ v) : (U \ insert fr v).card + 1 ≤ (insert fr U \ v).card := by
  have h1 : insert fr (U \ insert fr v) ⊆ insert fr U \ v := by
    intro x hx
    rcases Finset.mem_insert.mp hx with rfl | hx
    · exact Finset.mem_sdiff.mpr ⟨Finset.mem_insert_self _ _, h⟩
    · rcases Finset.mem_sdiff.mp hx with ⟨hxU, hxn⟩
      exact Finset.mem_sdiff.mpr ⟨Finset.mem_insert_of_mem hxU,
        fun hv => hxn (Finset.mem_insert_of_mem hv)⟩
  have h2 : fr ∉ U \ insert fr v :=
    fun hx => (Finset.mem_sdiff.mp hx).2 (Finset.mem_insert_self _ _)
  calc (U \ insert fr v).card + 1
      = (insert fr (U \ insert fr v)).card :=
        (Finset.card_insert_of_not_mem h2).symm
    _ ≤ (insert fr U \ v).card := Finset.card_le_card h1

lemma hasPathFold_visited_mono
    (visit : String → Finset String → Bool × Finset String)
    (hv : ∀ t v, v ⊆ (visit t v).2) :
    ∀ (l : List Edge) (v : Finset String), v ⊆ (hasPathFold visit l v).2 := by
  intro l
  induction l with
  | nil => intro v; simp [hasPathFold]
  | cons e rest ih =>
    intro v
    have h1 : v ⊆ (visit e.target v).2 := hv e.target v
    rcases hvis : visit e.target v with ⟨b, v'⟩
    rw [hvis] at h1
    cases b with
    | true => simpa [hasPathFold, hvis] using h1
    | false =>
      have hrw : hasPathFold visit (e :: rest) v = hasPathFold visit rest v' := by
        simp [hasPathFold, hvis]
      rw [hrw]
      exact h1.trans (ih v')

lemma hasPathVisit_visited_mono :
    ∀ (fuel : Nat) (fr dst : String) (v : Finset String),
      v ⊆ (hasPathVisit edges fuel fr dst v).2 := by
  intro fuel
  induction fuel with
  | zero => intro fr dst v; simp [hasPathVisit]
  | succ fuel ih =>
    intro fr dst v
    by_cases h1 : fr = dst
    · simp [hasPathVisit, h1]
    · by_cases h2 : fr ∈ v
      · simp [hasPathVisit, h1, h2]
      · have hfold := hasPathFold_visited_mono
          (fun t w => hasPathVisit edges fuel t dst w)
          (fun t w => ih t dst w)
          (edges.filter fun e => e.source == fr) (insert fr v)
        have : v ⊆ insert fr v := Finset.subset_insert fr v
        simpa [hasPathVisit, h1, h2] using this.trans hfold

lemma hasPathFold_sound (dst : String)
    (visit : String → Finset String → Bool × Finset String)
    (hv : ∀ t v, (visit t v).1 = true → Reach edges t dst) :
    ∀ (l : List Edge) (v : Finset String),
      (hasPathFold visit l v).1 = true →
      ∃ e ∈ l, Reach edges e.target dst := by
  intro l
  induction l with
  | nil => intro v h; simp [hasPathFold] at h
  | cons e rest ih =>
    intro v h
    rcases hvis : visit e.target v with ⟨b, v'⟩
    cases b with
    | true => exact ⟨e, List.mem_cons_self e rest, hv e.target v (by rw [hvis])⟩
    | false =>
      rw [show hasPathFold visit (e :: rest) v = hasPathFold visit rest v' by
        simp [hasPathFold, hvis]] at h
      rcases ih v' h with ⟨e', he', hr⟩
      exact ⟨e', List.mem_cons_of_mem e he', hr⟩

lemma hasPathVisit_sound :
    ∀ (fuel : Nat) (fr dst : String) (v : Finset String),
      (hasPathVisit edges fuel fr dst v).1 = true → Reach edges fr dst := by
  intro fuel
  induction fuel with
  | zero => intro fr dst v h; simp [hasPathVisit] at h
  | succ fuel ih =>
    intro fr dst v h
    by_cases h1 : fr = dst
    · exact h1 ▸ Relation.ReflTransGen.refl
    · by_cases h2 : fr ∈ v
      · simp [hasPathVisit, h1, h2] at h
      · rw [show hasPathVisit edges (fuel + 1) fr dst v =
            hasPathFold (fun t w => hasPathVisit edges fuel t dst w)
              (edges.filter fun e => e.source == fr) (insert fr v) by
          simp [hasPathVisit, h1, h2]] at h
        rcases hasPathFold_sound dst _ (fun t w => ih t dst w) _ _ h with
          ⟨e, he, hr⟩
        rcases List.mem_filter.mp he with ⟨heE, hsrc⟩
        exact Relation.ReflTransGen.head
          ⟨e, heE, eq_of_beq hsrc, rfl⟩ hr

lemma hasPathFold_dst_not_mem (dst : String)
    (visit : String → Finset String → Bool × Finset String)
    (hv : ∀ t v, dst ∉ v → dst ∉ (visit t v).2) :
    ∀ (l : List Edge) (v : Finset String),
      dst ∉ v → dst ∉ (hasPathFold visit l v).2 := by
  intro l
  induction l with
  | nil => intro v h; simpa [hasPathFold] using h
  | cons e rest ih =>
    intro v h
    rcases hvis : visit e.target v with ⟨b, v'⟩
    have h' : dst ∉ v' := by have := hv e.target v h; rwa [hvis] at this
    cases b with
    | true => simpa [hasPathFold, hvis] using h'
    | false =>
      rw [show hasPathFold visit (e :: rest) v = hasPathFold visit rest v' by
        simp [hasPathFold, hvis]]
      exact ih v' h'

lemma hasPathVisit_dst_not_mem :
    ∀ (fuel : Nat) (fr dst : String) (v : Finset String),
      dst ∉ v → dst ∉ (hasPathVisit edges fuel fr dst v).2 := by
  intro fuel
  induction fuel with
  | zero => intro fr dst v h; simpa [hasPathVisit] using h
  | succ fuel ih =>
    intro fr dst v h
    by_cases h1 : fr = dst
    · simpa [hasPathVisit, h1] using h
    · by_cases h2 : fr ∈ v
      · simpa [hasPathVisit, h1, h2] using h
      · have h3 : dst ∉ insert fr v := by
          intro hc
          rcases Finset.mem_insert.mp hc with rfl | hc
          · exact h1 rfl
          · exact h hc
        have := hasPathFold_dst_not_mem dst
          (fun t w => hasPathVisit edges fuel t dst w)
          (fun t w => ih t dst w)
          (edges.filter fun e => e.source == fr) (insert fr v) h3
        simpa [hasPathVisit, h1, h2] using this

lemma hasPathFold_false_props (fuel : Nat) (dst : String)
    (ih : ∀ (fr : String) (v : Finset String), enoughFuel edges fuel fr v →
      (hasPathVisit edges fuel fr dst v).1 = false →
      fr ∈ (hasPathVisit edges fuel fr dst v).2 ∧
      ∀ x ∈ (hasPathVisit edges fuel fr dst v).2, x ∉ v →
        ∀ e ∈ edges, e.source = x →
          e.target ∈ (hasPathVisit edges fuel fr dst v).2) :
    ∀ (l : List Edge) (v : Finset String),
      (∀ e ∈ l, e.target ∈ targetsOf edges) →
      (targetsOf edges \ v).card + 1 ≤ fuel →
      (hasPathFold (fun t w => hasPathVisit edges fuel t dst w) l v).1 = false →
      (∀ e ∈ l, e.target ∈
        (hasPathFold (fun t w => hasPathVisit edges fuel t dst w) l v).2) ∧
      ∀ x ∈ (hasPathFold (fun t w => hasPathVisit edges fuel t dst w) l v).2,
        x ∉ v → ∀ e ∈ edges, e.source = x →
          e.target ∈
            (hasPathFold (fun t w => hasPathVisit edges fuel t dst w) l v).2 := by
  intro l
  induction l with
  | nil =>
    intro v _ _ _
    refine ⟨by simp, ?_⟩
    intro x hx hxv
    simp only [hasPathFold] at hx
    exact absurd hx hxv
  | cons e rest ihl =>
    intro v hl hcard hfalse
    rcases hvis : hasPathVisit edges fuel e.target dst v with ⟨b, v₂⟩
    cases b with
    | true =>
      rw [show (hasPathFold (fun t w => hasPathVisit edges fuel t dst w)
          (e :: rest) v) = (true, v₂) by simp [hasPathFold, hvis]] at hfalse
      cases hfalse
    | false =>
      have hrw : hasPathFold (fun t w => hasPathVisit edges fuel t dst w)
          (e :: rest) v
          = hasPathFold (fun t w => hasPathVisit edges fuel t dst w) rest v₂ := by
        simp [hasPathFold, hvis]
      have hef : enoughFuel edges fuel e.target v := by
        unfold enoughFuel
        rw [Finset.insert_eq_self.mpr (hl e (List.mem_cons_self e rest))]
        exact hcard
      have hsub := ih e.target v hef (by rw [hvis])
      rw [hvis] at hsub
      obtain ⟨het, hclo2⟩ := hsub
      have hv2 : v ⊆ v₂ := by
        have := @hasPathVisit_visited_mono edges fuel e.target dst v
        rwa [hvis] at this
      have hcard2 : (targetsOf edges \ v₂).card + 1 ≤ fuel := by
        have hss : targetsOf edges \ v₂ ⊆ targetsOf edges \ v :=
          Finset.sdiff_subset_sdiff (Finset.Subset.refl _) hv2
        have := Finset.card_le_card hss
        omega
      rw [hrw] at hfalse
      obtain ⟨hrest1, hclo3⟩ := ihl v₂
        (fun e' he' => hl e' (List.mem_cons_of_mem e he')) hcard2 hfalse
      have hmono := hasPathFold_visited_mono
        (fun t w => hasPathVisit edges fuel t dst w)
        (fun t w => @hasPathVisit_visited_mono edges fuel t dst w)
        rest v₂
      rw [hrw]
      constructor
      · intro e' he'
        rcases List.mem_cons.mp he' with rfl | he'
        · exact hmono het
        · exact hrest1 e' he'
      · intro x hx hxv e' he' hsrc
        by_cases hxv2 : x ∈ v₂
        · exact hmono (hclo2 x hxv2 hxv e' he' hsrc)
        · exact hclo3 x hx hxv2 e' he' hsrc

lemma hasPathVisit_false_props :
    ∀ (fuel : Nat) (fr dst : String) (v : Finset String),
      enoughFuel edges fuel fr v →
      (hasPathVisit edges fuel fr dst v).1 = false →
      fr ∈ (hasPathVisit edges fuel fr dst v).2 ∧
      ∀ x ∈ (hasPathVisit edges fuel fr dst v).2, x ∉ v →
        ∀ e ∈ edges, e.source = x →
          e.target ∈ (hasPathVisit edges fuel fr dst v).2 := by
  intro fuel
  induction fuel with
  | zero =>
    intro fr dst v hef
    exact absurd hef (by simp [enoughFuel])
  | succ fuel ih =>
    intro fr dst v hef hfalse
    by_cases h1 : fr = dst
    · simp [hasPathVisit, h1] at hfalse
    · by_cases h2 : fr ∈ v
      · refine ⟨by simp [hasPathVisit, h1, h2], ?_⟩
        intro x hx hxv
        simp only [hasPathVisit, if_neg h1, if_pos h2] at hx
        exact absurd hx hxv
      · have hrw : hasPathVisit edges (fuel + 1) fr dst v =
            hasPathFold (fun t w => hasPathVisit edges fuel t dst w)
              (edges.filter fun e => e.source == fr) (insert fr v) := by
          simp [hasPathVisit, h1, h2]
        have hl : ∀ e ∈ edges.filter (fun e => e.source == fr),
            e.target ∈ targetsOf edges := by
          intro e he
          exact mem_targetsOf.mpr ⟨e, (List.mem_filter.mp he).1, rfl⟩
        have hcard : (targetsOf edges \ insert fr v).card + 1 ≤ fuel := by
          have := card_sdiff_insert_succ_le (targetsOf edges) v fr h2
          unfold enoughFuel at hef
          omega
        rw [hrw] at hfalse
        obtain ⟨hf1, hf2⟩ := hasPathFold_false_props fuel dst
          (fun fr' v' => ih fr' dst v') _ (insert fr v) hl hcard hfalse
        have hmono := hasPathFold_visited_mono
          (fun t w => hasPathVisit edges fuel t dst w)
          (fun t w => @hasPathVisit_visited_mono edges fuel t dst w)
          (edges.filter fun e => e.source == fr) (insert fr v)
        rw [hrw]
        constructor
        · exact hmono (Finset.mem_insert_self fr v)
        · intro x hx hxv e he hsrc
          by_cases hxfr : x = fr
          · subst hxfr
            exact hf1 e (List.mem_filter.mpr ⟨he, by simp [hsrc]⟩)
          · refine hf2 x hx ?_ e he hsrc
            intro hc
            rcases Finset.mem_insert.mp hc with h | h
            · exact hxfr h
            · exact hxv h

lemma wouldCreateCycle_iff_reach (edges : List Edge) (s t : String) :
    wouldCreateCycle edges s t = true ↔ Reach edges t s := by
  constructor
  · intro h
    exact hasPathVisit_sound _ _ _ _ h
  · intro hreach
    by_contra hfalse
    have hf : (hasPathVisit edges (edges.length + 2) t s ∅).1 = false := by
      cases hb : (hasPathVisit edges (edges.length + 2) t s ∅).1 with
      | true => exact absurd hb hfalse
      | false => rfl
    have hef : enoughFuel edges (edges.length + 2) t ∅ := by
      unfold enoughFuel
      rw [Finset.sdiff_empty]
      have h1 := Finset.card_insert_le t (targetsOf edges)
      have h2 := @targetsOf_card_le edges
      omega
    obtain ⟨ht, hclo⟩ := hasPathVisit_false_props _ t s ∅ hef hf
    have hs : s ∉ (hasPathVisit edges (edges.length + 2) t s ∅).2 :=
      hasPathVisit_dst_not_mem _ t s ∅ (Finset.not_mem_empty s)
    have hall : ∀ x, Reach edges t x →
        x ∈ (hasPathVisit edges (edges.length + 2) t s ∅).2 := by
      intro x hx
      induction hx with
      | refl => exact ht
      | tail h1 h2 ih =>
        rcases h2 with ⟨e, he, hsrc, htgt⟩
        exact htgt ▸ hclo _ ih (Finset.not_mem_empty _) e he hsrc
    exact hs (hall s hreach)

lemma wouldCreateCycle_eq_false_iff (edges : List Edge) (s t : String) :
    wouldCreateCycle edges s t = false ↔ ¬ Reach edges t s := by
  rw [← wouldCreateCycle_iff_reach edges s t]
  cases wouldCreateCycle edges s t <;> simp

lemma hasPathFold_congr_fuel (fuel : Nat) (dst : String)
    (ih : ∀ (fr : String) (v : Finset String), enoughFuel edges fuel fr v →
      hasPathVisit edges (fuel + 1) fr dst v = hasPathVisit edges fuel fr dst v) :
    ∀ (l : List Edge) (v : Finset String),
      (∀ e ∈ l, e.target ∈ targetsOf edges) →
      (targetsOf edges \ v).card + 1 ≤ fuel →
      hasPathFold (fun t w => hasPathVisit edges (fuel + 1) t dst w) l v
        = hasPathFold (fun t w => hasPathVisit edges fuel t dst w) l v := by
  intro l
  induction l with
  | nil => intro v _ _; simp [hasPathFold]
  | cons e rest ihl =>
    intro v hl hcard
    have hef : enoughFuel edges fuel e.target v := by
      unfold enoughFuel
      rw [Finset.insert_eq_self.mpr (hl e (List.mem_cons_self e rest))]
      exact hcard
    have heq := ih e.target v hef
    rcases hvis : hasPathVisit edges fuel e.target dst v with ⟨b, v₂⟩
    rw [hvis] at heq
    cases b with
    | true => simp [hasPathFold, heq, hvis]
    | false =>
      have hv2 : v ⊆ v₂ := by
        have := @hasPathVisit_visited_mono edges fuel e.target dst v
        rwa [hvis] at this
      have hcard2 : (targetsOf edges \ v₂).card + 1 ≤ fuel := by
        have := Finset.card_le_card
          (Finset.sdiff_subset_sdiff (Finset.Subset.refl (targetsOf edges)) hv2)
        omega
      have hrest := ihl v₂ (fun e' he' => hl e' (List.mem_cons_of_mem e he'))
        hcard2
      simp [hasPathFold, heq, hvis, hrest]

lemma hasPathVisit_fuel_succ :
    ∀ (fuel : Nat) (fr dst : String) (v : Finset String),
      enoughFuel edges fuel fr v →
      hasPathVisit edges (fuel + 1) fr dst v = hasPathVisit edges fuel fr dst v := by
  intro fuel
  induction fuel with
  | zero => intro fr dst v hef; exact absurd hef (by simp [enoughFuel])
  | succ fuel ih =>
    intro fr dst v hef
    by_cases h1 : fr = dst
    · simp [hasPathVisit, h1]
    · by_cases h2 : fr ∈ v
      · simp [hasPathVisit, h1, h2]
      · have hl : ∀ e ∈ edges.filter (fun e => e.source == fr),
            e.target ∈ targetsOf edges := by
          intro e he
          exact mem_targetsOf.mpr ⟨e, (List.mem_filter.mp he).1, rfl⟩
        have hcard : (targetsOf edges \ insert fr v).card + 1 ≤ fuel := by
          have := card_sdiff_insert_succ_le (targetsOf edges) v fr h2
          unfold enoughFuel at hef
          omega
        have hfold := hasPathFold_congr_fuel fuel dst
          (fun fr' v' => ih fr' dst v')
          (edges.filter fun e => e.source == fr) (insert fr v) hl hcard
        simp only [hasPathVisit, if_neg h1, if_neg h2]
        exact hfold

lemma hasPathVisit_fuel_stable (fr dst : String) :
    ∀ (fuel : Nat), edges.length + 2 ≤ fuel →
      hasPathVisit edges fuel fr dst ∅
        = hasPathVisit edges (edges.length + 2) fr dst ∅ := by
  intro fuel
  induction fuel with
  | zero => intro h; omega
  | succ fuel ih =>
    intro h
    rcases Nat.lt_or_ge (fuel + 1) (edges.length + 3) with hlt | hge
    · have : fuel + 1 = edges.length + 2 := by omega
      rw [this]
    · have h1 : edges.length + 2 ≤ fuel := by omega
      have hef : enoughFuel edges fuel fr ∅ := by
        unfold enoughFuel
        rw [Finset.sdiff_empty]
        have := Finset.card_insert_le fr (targetsOf edges)
        have := @targetsOf_card_le edges
        omega
      rw [hasPathVisit_fuel_succ fuel fr dst ∅ hef]
      exact ih h1

lemma stepEdge_append {e : Edge} {x y : String} :
    stepEdge (edges ++ [e]) x y ↔
      stepEdge edges x y ∨ (x = e.source ∧ y = e.target) := by
  unfold stepEdge
  constructor
  · rintro ⟨e', he', hs, ht⟩
    rcases List.mem_append.mp he' with h | h
    · exact Or.inl ⟨e', h, hs, ht⟩
    · rcases List.mem_singleton.mp h with rfl
      exact Or.inr ⟨hs.symm, ht.symm⟩
  · rintro (⟨e', he', hs, ht⟩ | ⟨rfl, rfl⟩)
    · exact ⟨e', List.mem_append_left _ he', hs, ht⟩
    · exact ⟨e, List.mem_append_right _ (List.mem_singleton_self e), rfl, rfl⟩

lemma reach_mono_append {e : Edge} {a b : String} (h : Reach edges a b) :
    Reach (edges ++ [e]) a b := by
  induction h with
  | refl => exact Relation.ReflTransGen.refl
  | tail _ h2 ih =>
    exact Relation.ReflTransGen.tail ih (stepEdge_append.mpr (Or.inl h2))

lemma reach_append_decomp {e : Edge} {a b : String}
    (hcyc : ¬ Reach edges e.target e.source)
    (h : Reach (edges ++ [e]) a b) :
    Reach edges a b ∨ (Reach edges a e.source ∧ Reach edges e.target b) := by
  induction h with
  | refl => exact Or.inl Relation.ReflTransGen.refl
  | tail _ h2 ih =>
    rcases stepEdge_append.mp h2 with hstep | ⟨rfl, rfl⟩
    · rcases ih with hr | ⟨hr1, hr2⟩
      · exact Or.inl (Relation.ReflTransGen.tail hr hstep)
      · exact Or.inr ⟨hr1, Relation.ReflTransGen.tail hr2 hstep⟩
    · rcases ih with hr | ⟨hr1, hr2⟩
      · exact Or.inr ⟨hr, Relation.ReflTransGen.refl⟩
      · exact absurd hr2 hcyc

lemma acyclic_append {e : Edge} (hacy : Acyclic edges)
    (hcyc : ¬ Reach edges e.target e.source) :
    Acyclic (edges ++ [e]) := by
  intro x y hstep hreach
  rcases stepEdge_append.mp hstep with hstep' | ⟨rfl, rfl⟩
  · rcases reach_append_decomp hcyc hreach with hr | ⟨hr1, hr2⟩
    · exact hacy x y hstep' hr
    · exact hcyc (hr2.trans (Relation.ReflTransGen.head hstep' hr1))
  · rcases reach_append_decomp hcyc hreach with hr | ⟨hr1, _⟩
    · exact hcyc hr
    · exact hcyc hr1

lemma mem_connectedNodeIds {x : String} :
    x ∈ connectedNodeIds edges ↔
      ∃ e ∈ edges, e.source = x ∨ e.target = x := by
  unfold connectedNodeIds
  suffices h : ∀ (init : Finset String),
      x ∈ edges.foldl (fun s e => insert e.target (insert e.source s)) init ↔
        x ∈ init ∨ ∃ e ∈ edges, e.source = x ∨ e.target = x by
    rw [h ∅]
    simp
  induction edges with
  | nil => intro init; simp
  | cons e rest ih =>
    intro init
    rw [List.foldl_cons, ih]
    constructor
    · rintro (hmem | ⟨e', he', hcase⟩)
      · rcases Finset.mem_insert.mp hmem with rfl | hmem
        · exact Or.inr ⟨e, List.mem_cons_self e rest, Or.inr rfl⟩
        · rcases Finset.mem_insert.mp hmem with rfl | hmem
          · exact Or.inr ⟨e, List.mem_cons_self e rest, Or.inl rfl⟩
          · exact Or.inl hmem
      · exact Or.inr ⟨e', List.mem_cons_of_mem e he', hcase⟩
    · rintro (hmem | ⟨e', he', hcase⟩)
      · exact Or.inl (Finset.mem_insert_of_mem (Finset.mem_insert_of_mem hmem))
      · rcases List.mem_cons.mp he' with rfl | he'
        · rcases hcase with rfl | rfl
          · exact Or.inl (Finset.mem_insert_of_mem (Finset.mem_insert_self _ _))
          · exact Or.inl (Finset.mem_insert_self _ _)
        · exact Or.inr ⟨e', he', hcase⟩

lemma toDigitsCore_app (fuel n : Nat) (ds : List Char) :
    Nat.toDigitsCore 10 fuel n ds = Nat.toDigitsCore 10 fuel n [] ++ ds := by
  induction fuel generalizing n ds with
  | zero => simp [Nat.toDigitsCore]
  | succ fuel ih =>
    simp only [Nat.toDigitsCore]
    by_cases h : n / 10 = 0
    · simp [h]
    · simp only [h, if_neg]
      rw [ih (n / 10) [Nat.digitChar (n % 10)],
        ih (n / 10) (Nat.digitChar (n % 10) :: ds)]
      simp

lemma toDigitsCore_eq_digits (n : Nat) :
    ∀ (fuel : Nat), n < fuel → 0 < n →
    Nat.toDigitsCore 10 fuel n []
      = ((Nat.digits 10 n).map Nat.digitChar).reverse := by
  induction n using Nat.strong_induction_on with
  | _ n ihn =>
    intro fuel hfuel hpos
    match fuel, hfuel with
    | fuel + 1, hfuel =>
      simp only [Nat.toDigitsCore]
      rw [Nat.digits_def' (by norm_num : (1:ℕ) < 10) hpos]
      by_cases h : n / 10 = 0
      · simp [h]
      · simp only [h, if_neg]
        rw [toDigitsCore_app]
        rw [ihn (n / 10) (Nat.div_lt_self hpos (by norm_num))
          fuel (by omega) (Nat.pos_of_ne_zero h)]
        simp

lemma digitChar_inj_bdd : ∀ a < 10, ∀ b < 10,
    Nat.digitChar a = Nat.digitChar b → a = b := by decide

lemma map_digitChar_inj : ∀ (l₁ l₂ : List Nat), (∀ x ∈ l₁, x < 10) →
    (∀ x ∈ l₂, x < 10) →
    l₁.map Nat.digitChar = l₂.map Nat.digitChar → l₁ = l₂ := by
  intro l₁
  induction l₁ with
  | nil => intro l₂ _ _ h; cases l₂ <;> simp_all
  | cons a t ih =>
    intro l₂ h1 h2 h
    cases l₂ with
    | nil => simp at h
    | cons b t' =>
      simp only [List.map_cons, List.cons.injEq] at h
      have := digitChar_inj_bdd a (h1 a (by simp)) b (h2 b (by simp)) h.1
      rw [this, ih t' (fun x hx => h1 x (by simp [hx]))
        (fun x hx => h2 x (by simp [hx])) h.2]

lemma asString_inj {l₁ l₂ : List Char} (h : l₁.asString = l₂.asString) :
    l₁ = l₂ := by
  exact congrArg String.data h

lemma digits_map_inj {m n : Nat}
    (h : (Nat.digits 10 m).map Nat.digitChar
      = (Nat.digits 10 n).map Nat.digitChar) : m = n := by
  have hdig := map_digitChar_inj (Nat.digits 10 m) (Nat.digits 10 n)
    (fun x hx => Nat.digits_lt_base (by norm_num) hx)
    (fun x hx => Nat.digits_lt_base (by norm_num) hx) h
  calc m = Nat.ofDigits 10 (Nat.digits 10 m) := (Nat.ofDigits_digits 10 m).symm
    _ = Nat.ofDigits 10 (Nat.digits 10 n) := by rw [hdig]
    _ = n := Nat.ofDigits_digits 10 n

lemma repr_pos_eq (n : Nat) (hn : 0 < n) :
    Nat.repr n = (((Nat.digits 10 n).map Nat.digitChar).reverse).asString := by
  unfold Nat.repr Nat.toDigits
  rw [toDigitsCore_eq_digits n (n + 1) (by omega) hn]

lemma repr_ne_of_pos (n : Nat) (hn : 0 < n) : Nat.repr n ≠ Nat.repr 0 := by
  intro h
  rw [repr_pos_eq n hn, show Nat.repr 0 = (['0'] : List Char).asString from rfl] at h
  have h1 := asString_inj h
  have h2 : (Nat.digits 10 n).map Nat.digitChar = ['0'] := by
    rw [← List.reverse_reverse ((Nat.digits 10 n).map Nat.digitChar), h1]
    rfl
  have h3 : (Nat.digits 10 n).map Nat.digitChar
      = ([0] : List Nat).map Nat.digitChar := by
    simpa using h2
  apply map_digitChar_inj (Nat.digits 10 n) [0]
    (fun x hx => Nat.digits_lt_base (by norm_num) hx) (by simp) at h3
  have h5 := Nat.ofDigits_digits 10 n
  rw [h3] at h5
  simp [Nat.ofDigits] at h5
  omega

lemma nat_repr_injective : Function.Injective Nat.repr := by
  intro m n h
  rcases Nat.eq_zero_or_pos m with rfl | hm
  · rcases Nat.eq_zero_or_pos n with rfl | hn
    · rfl
    · exact absurd h.symm (repr_ne_of_pos n hn)
  · rcases Nat.eq_zero_or_pos n with rfl | hn
    · exact absurd h (repr_ne_of_pos m hm)
    · rw [repr_pos_eq m hm, repr_pos_eq n hn] at h
      have h1 := asString_inj h
      have h2 := congrArg List.reverse h1
      simp only [List.reverse_reverse] at h2
      exact digits_map_inj h2

lemma toString_nat_injective {m n : Nat} (h : toString m = toString n) :
    m = n :=
  nat_repr_injective h

lemma any_handle_iff (edges : List Edge) (src : String) (h : Option String) :
    (edges.any fun e => e.source == src && e.sourceHandle == h) = true ↔
      ∃ e ∈ edges, e.source = src ∧ e.sourceHandle = h := by
  simp [List.any_eq_true]

lemma onConnect_accepted_or_frame (s : AppState) (c : Connection) :
    (onConnect s c).2 = ConnectResult.accepted ∨ (onConnect s c).1 = s := by
  unfold onConnect
  split_ifs <;> simp

lemma onConnect_nodes (s : AppState) (c : Connection) :
    (onConnect s c).1.nodes = s.nodes := by
  unfold onConnect
  split_ifs <;> rfl

lemma onConnect_counter (s : AppState) (c : Connection) :
    (onConnect s c).1.counter = s.counter := by
  unfold onConnect
  split_ifs <;> rfl

lemma onConnect_accepted_props (s : AppState) (c : Connection)
    (h : (onConnect s c).2 = ConnectResult.accepted) :
    (onConnect s c).1.edges = addEdgeLib c s.edges ∧
    ¬ Reach s.edges c.target c.source ∧
    ¬ (∃ e ∈ s.edges, e.source = c.source ∧ e.sourceHandle = c.sourceHandle) ∧
    c.source ≠ c.target ∧ c.source ≠ "" ∧ c.target ≠ "" := by
  have hex := any_handle_iff s.edges c.source c.sourceHandle
  have hcy := wouldCreateCycle_iff_reach s.edges c.source c.target
  by_cases h1 : c.source = "" ∨ c.target = ""
  · simp [onConnect, h1] at h
  obtain ⟨hs, ht⟩ := not_or.mp h1
  by_cases h2 : c.source = c.target
  · simp [onConnect, hs, ht, h2] at h
  by_cases h3 : (s.edges.any fun e =>
      e.source == c.source && e.sourceHandle == c.sourceHandle) = true
  · simp [onConnect, hs, ht, h2, h3] at h
  by_cases h4 : wouldCreateCycle s.edges c.source c.target = true
  · simp [onConnect, hs, ht, h2, h3, h4] at h
  · refine ⟨by simp [onConnect, hs, ht, h2, h3, h4], mt hcy.mpr h4, mt hex.mpr h3,
      h2, hs, ht⟩

lemma onConnect_silent_iff (s : AppState) (c : Connection) :
    (onConnect s c).2 = ConnectResult.rejectedSilent ↔
      (c.source = "" ∨ c.target = "") := by
  unfold onConnect
  split_ifs <;> simp_all

lemma onConnect_selfLoop_iff (s : AppState) (c : Connection) :
    (onConnect s c).2 = ConnectResult.selfLoop ↔
      ¬ (c.source = "" ∨ c.target = "") ∧ c.source = c.target := by
  unfold onConnect
  split_ifs <;> simp_all

lemma onConnect_handle_iff (s : AppState) (c : Connection) :
    (onConnect s c).2 = ConnectResult.handleAlreadyConnected ↔
      ¬ (c.source = "" ∨ c.target = "") ∧ c.source ≠ c.target ∧
      ∃ e ∈ s.edges, e.source = c.source ∧ e.sourceHandle = c.sourceHandle := by
  have hex := any_handle_iff s.edges c.source c.sourceHandle
  by_cases h1 : c.source = "" ∨ c.target = ""
  · simp [onConnect, h1]
  obtain ⟨hs, ht⟩ := not_or.mp h1
  by_cases h2 : c.source = c.target
  · simp [onConnect, hs, ht, h2]
  by_cases h3 : (s.edges.any fun e =>
      e.source == c.source && e.sourceHandle == c.sourceHandle) = true
  · simp [onConnect, hs, ht, h2, h3, hex.mp h3]
  by_cases h4 : wouldCreateCycle s.edges c.source c.target = true
  · simp [onConnect, hs, ht, h2, h3, h4, mt hex.mpr h3]
  · simp [onConnect, hs, ht, h2, h3, h4, mt hex.mpr h3]

lemma onConnect_wouldCycle_iff (s : AppState) (c : Connection) :
    (onConnect s c).2 = ConnectResult.wouldCycle ↔
      ¬ (c.source = "" ∨ c.target = "") ∧ c.source ≠ c.target ∧
      ¬ (∃ e ∈ s.edges, e.source = c.source ∧ e.sourceHandle = c.sourceHandle) ∧
      Reach s.edges c.target c.source := by
  have hex := any_handle_iff s.edges c.source c.sourceHandle
  have hcy := wouldCreateCycle_iff_reach s.edges c.source c.target
  by_cases h1 : c.source = "" ∨ c.target = ""
  · simp [onConnect, h1]
  obtain ⟨hs, ht⟩ := not_or.mp h1
  by_cases h2 : c.source = c.target
  · simp [onConnect, hs, ht, h2]
  by_cases h3 : (s.edges.any fun e =>
      e.source == c.source && e.sourceHandle == c.sourceHandle) = true
  · simp [onConnect, hs, ht, h2, h3, hex.mp h3]
  by_cases h4 : wouldCreateCycle s.edges c.source c.target = true
  · simp [onConnect, hs, ht, h2, h3, h4, mt hex.mpr h3, hcy.mp h4]
  · simp [onConnect, hs, ht, h2, h3, h4, mt hcy.mpr h4]

lemma onConnect_accepted_iff (s : AppState) (c : Connection) :
    (onConnect s c).2 = ConnectResult.accepted ↔
      ¬ (c.source = "" ∨ c.target = "") ∧ c.source ≠ c.target ∧
      ¬ (∃ e ∈ s.edges, e.source = c.source ∧ e.sourceHandle = c.sourceHandle) ∧
      ¬ Reach s.edges c.target c.source := by
  have hex := any_handle_iff s.edges c.source c.sourceHandle
  have hcy := wouldCreateCycle_iff_reach s.edges c.source c.target
  by_cases h1 : c.source = "" ∨ c.target = ""
  · simp [onConnect, h1]
  obtain ⟨hs, ht⟩ := not_or.mp h1
  by_cases h2 : c.source = c.target
  · simp [onConnect, hs, ht, h2]
  by_cases h3 : (s.edges.any fun e =>
      e.source == c.source && e.sourceHandle == c.sourceHandle) = true
  · simp [onConnect, hs, ht, h2, h3, hex.mp h3]
  by_cases h4 : wouldCreateCycle s.edges c.source c.target = true
  · simp [onConnect, hs, ht, h2, h3, h4, hcy.mp h4]
  · simp [onConnect, hs, ht, h2, h3, h4, mt hex.mpr h3, mt hcy.mpr h4]

lemma onConnect_preserves_acyclic (s : AppState) (c : Connection)
    (h : Acyclic s.edges) : Acyclic (onConnect s c).1.edges := by
  rcases onConnect_accepted_or_frame s c with hacc | hfr
  · obtain ⟨hedges, hnr, _, _, _, _⟩ := onConnect_accepted_props s c hacc
    rw [hedges]
    exact acyclic_append h hnr
  · rw [hfr]
    exact h

lemma saveChanges_fst (s : AppState) : (saveChanges s).1 = s := by
  unfold saveChanges
  split_ifs <;> rfl

lemma handleClearAll_eq (s : AppState) : handleClearAll s = initialState := rfl

lemma createMessageNode_edges (s : AppState) :
    (createMessageNode s).edges = s.edges := by
  unfold createMessageNode
  split_ifs <;> rfl

lemma updateSelectedNode_frame (s : AppState) :
    (updateSelectedNode s).edges = s.edges ∧
    (updateSelectedNode s).counter = s.counter := by
  rcases hsel : s.selectedNodeId with _ | sel
  · rw [updateSelectedNode_none s hsel]
    exact ⟨rfl, rfl⟩
  · rw [updateSelectedNode_some s sel hsel]
    split_ifs <;> exact ⟨rfl, rfl⟩

lemma deleteSelectedNode_counter (s : AppState) :
    (deleteSelectedNode s).counter = s.counter := by
  rcases hsel : s.selectedNodeId with _ | sel
  · rw [deleteSelectedNode_none s hsel]
  · rw [deleteSelectedNode_some s sel hsel]
    split_ifs <;> rfl

lemma deleteSelectedEdge_frame (s : AppState) :
    (deleteSelectedEdge s).nodes = s.nodes ∧
    (deleteSelectedEdge s).counter = s.counter := by
  rcases hsel : s.selectedEdgeId with _ | sel
  · rw [deleteSelectedEdge_none s hsel]
    exact ⟨rfl, rfl⟩
  · rw [deleteSelectedEdge_some s sel hsel]
    split_ifs <;> exact ⟨rfl, rfl⟩

lemma fanOut_nil : FanOut [] := by
  intro src h
  simp

lemma fanOut_sublist {l₁ l₂ : List Edge} (hs : l₁.Sublist l₂)
    (h : FanOut l₂) : FanOut l₁ := by
  intro src hh
  exact le_trans (List.Sublist.length_le (List.Sublist.filter _ hs)) (h src hh)

lemma singleton_filter_length_le {α : Type} (p : α → Bool) (x : α) :
    (List.filter p [x]).length ≤ 1 := by
  cases h : p x <;> simp [List.filter, h]

lemma filter_append_singleton {α : Type} (p : α → Bool) (l : List α) (x : α) :
    List.filter p (l ++ [x])
      = if p x then l.filter p ++ [x] else l.filter p := by
  rw [List.filter_append]
  cases h : p x <;> simp [List.filter, h]

lemma fanOut_addEdge (c : Connection) (edges : List Edge) (h : FanOut edges)
    (hno : ¬ ∃ e ∈ edges, e.source = c.source ∧ e.sourceHandle = c.sourceHandle) :
    FanOut (addEdgeLib c edges) := by
  intro src hh
  unfold addEdgeLib
  rw [filter_append_singleton]
  split_ifs with hx
  · have hx' : c.source = src ∧ c.sourceHandle = hh := by
      simpa [Bool.and_eq_true, beq_iff_eq] using hx
    have hold : (edges.filter fun e => e.source == src && e.sourceHandle == hh)
        = [] := by
      rw [List.filter_eq_nil_iff]
      intro e he
      simp only [Bool.and_eq_true, beq_iff_eq, not_and]
      intro hsrc hhdl
      exact hno ⟨e, he, by rw [hsrc, hx'.1], by rw [hhdl, hx'.2]⟩
    rw [hold]
    simp
  · exact h src hh

lemma applyIntent_fanOut (s : AppState) (i : Intent) (h : FanOut s.edges) :
    FanOut (applyIntent s i).edges := by
  cases i with
  | connect c =>
    show FanOut (onConnect s c).1.edges
    rcases onConnect_accepted_or_frame s c with hacc | hfr
    · obtain ⟨hedges, _, hno, _, _, _⟩ := onConnect_accepted_props s c hacc
      rw [hedges]
      exact fanOut_addEdge c s.edges h hno
    · rw [hfr]
      exact h
  | clickNode n => exact h
  | clickEdge eid => exact h
  | paneClick => exact h
  | typeMessage m => exact h
  | createNode =>
    show FanOut (createMessageNode s).edges
    rw [createMessageNode_edges]
    exact h
  | updateNode =>
    show FanOut (updateSelectedNode s).edges
    rw [(updateSelectedNode_frame s).1]
    exact h
  | deleteNode =>
    show FanOut (deleteSelectedNode s).edges
    rcases hsel : s.selectedNodeId with _ | sel
    · rw [deleteSelectedNode_none s hsel]
      exact h
    · rw [deleteSelectedNode_some s sel hsel]
      split_ifs
      · exact h
      · exact fanOut_sublist (List.filter_sublist _) h
  | deleteEdge =>
    show FanOut (deleteSelectedEdge s).edges
    rcases hsel : s.selectedEdgeId with _ | sel
    · rw [deleteSelectedEdge_none s hsel]
      exact h
    · rw [deleteSelectedEdge_some s sel hsel]
      split_ifs
      · exact h
      · exact fanOut_sublist (List.filter_sublist _) h
  | clearAll => exact fanOut_nil
  | save =>
    show FanOut (saveChanges s).1.edges
    rw [saveChanges_fst]
    exact h
  | cancel => exact h
  | togglePanel => exact h

lemma applyIntents_fanOut (l : List Intent) :
    ∀ (s : AppState), FanOut s.edges → FanOut (applyIntents s l).edges := by
  induction l with
  | nil => intro s h; exact h
  | cons i rest ih =>
    intro s h
    exact ih (applyIntent s i) (applyIntent_fanOut s i h)

lemma goodIds_congr {s₁ s₂ : AppState} (hn : s₂.nodes = s₁.nodes)
    (hc : s₂.counter = s₁.counter) (h : GoodIds s₁) : GoodIds s₂ := by
  obtain ⟨h1, h2⟩ := h
  constructor
  · rw [hn]
    exact h1
  · rw [hn, hc]
    exact h2

lemma goodIds_initial : GoodIds initialState := by
  constructor
  · simp [initialState, defaultNodes]
  · intro n hn
    simp only [initialState, defaultNodes, List.mem_singleton] at hn
    refine ⟨1, ?_, by simp [initialState]⟩
    rw [hn]
    decide

lemma goodIds_create (s : AppState) (h : GoodIds s) :
    GoodIds (createMessageNode s) := by
  obtain ⟨hnd, hlt⟩ := h
  unfold createMessageNode
  split_ifs with htrim
  · exact ⟨hnd, hlt⟩
  · constructor
    · show ((s.nodes
        ++ [({ id := toString s.counter, message := s.messageText } : NodeRec)]).map
          NodeRec.id).Nodup
      rw [List.map_append, List.nodup_append]
      refine ⟨hnd, by simp, ?_⟩
      intro a ha hb
      simp only [List.map_cons, List.map_nil, List.mem_singleton] at hb
      rcases List.mem_map.mp ha with ⟨n, hn, rfl⟩
      rcases hlt n hn with ⟨k, hk1, hk2⟩
      rw [hk1] at hb
      have := toString_nat_injective hb
      omega
    · intro n hn
      rcases List.mem_append.mp hn with hn | hn
      · rcases hlt n hn with ⟨k, hk1, hk2⟩
        exact ⟨k, hk1, by simp only []; omega⟩
      · rcases List.mem_singleton.mp hn with rfl
        exact ⟨s.counter, rfl, by simp⟩

lemma goodIds_update (s : AppState) (h : GoodIds s) :
    GoodIds (updateSelectedNode s) := by
  obtain ⟨hnd, hlt⟩ := h
  rcases hsel : s.selectedNodeId with _ | sel
  · rw [updateSelectedNode_none s hsel]
    exact ⟨hnd, hlt⟩
  · rw [updateSelectedNode_some s sel hsel]
    split_ifs with hemp htrim
    · exact ⟨hnd, hlt⟩
    · exact ⟨hnd, hlt⟩
    · constructor
      · have hids : ((s.nodes.map fun n =>
            if n.id = sel then { n with message := s.messageText } else n).map
              NodeRec.id) = s.nodes.map NodeRec.id := by
          rw [List.map_map]
          apply List.map_congr_left
          intro n _
          by_cases hid : n.id = sel <;> simp [hid]
        show ((s.nodes.map fun n =>
          if n.id = sel then { n with message := s.messageText } else n).map
            NodeRec.id).Nodup
        rw [hids]
        exact hnd
      · intro n hn
        rcases List.mem_map.mp hn with ⟨n₀, hn₀, rfl⟩
        rcases hlt n₀ hn₀ with ⟨k, hk1, hk2⟩
        refine ⟨k, ?_, hk2⟩
        by_cases hid : n₀.id = sel
        · rw [if_pos hid]
          exact hk1
        · rw [if_neg hid]
          exact hk1

lemma goodIds_delete (s : AppState) (h : GoodIds s) :
    GoodIds (deleteSelectedNode s) := by
  obtain ⟨hnd, hlt⟩ := h
  rcases hsel : s.selectedNodeId with _ | sel
  · rw [deleteSelectedNode_none s hsel]
    exact ⟨hnd, hlt⟩
  · rw [deleteSelectedNode_some s sel hsel]
    split_ifs with hemp
    · exact ⟨hnd, hlt⟩
    · constructor
      · exact List.Nodup.sublist ((List.filter_sublist _).map _) hnd
      · intro n hn
        exact hlt n (List.mem_of_mem_filter hn)

lemma applyIntent_goodIds (s : AppState) (i : Intent) (h : GoodIds s) :
    GoodIds (applyIntent s i) := by
  cases i with
  | connect c =>
    exact goodIds_congr (onConnect_nodes s c) (onConnect_counter s c) h
  | clickNode n => exact h
  | clickEdge eid => exact h
  | paneClick => exact h
  | typeMessage m => exact h
  | createNode => exact goodIds_create s h
  | updateNode => exact goodIds_update s h
  | deleteNode => exact goodIds_delete s h
  | deleteEdge =>
    exact goodIds_congr (deleteSelectedEdge_frame s).1
      (deleteSelectedEdge_frame s).2 h
  | clearAll => exact goodIds_initial
  | save =>
    exact goodIds_congr (congrArg AppState.nodes (saveChanges_fst s))
      (congrArg AppState.counter (saveChanges_fst s)) h
  | cancel => exact h
  | togglePanel => exact h

lemma applyIntents_goodIds (l : List Intent) :
    ∀ (s : AppState), GoodIds s → GoodIds (applyIntents s l) := by
  induction l with
  | nil => intro s h; exact h
  | cons i rest ih =>
    intro s h
    exact ih (applyIntent s i) (applyIntent_goodIds s i h)

lemma applyIntent_counter_mono (s : AppState) (i : Intent)
    (h : i ≠ Intent.clearAll) : s.counter ≤ (applyIntent s i).counter := by
  cases i with
  | connect c => exact le_of_eq (onConnect_counter s c).symm
  | clickNode n => exact Nat.le_refl _
  | clickEdge eid => exact Nat.le_refl _
  | paneClick => exact Nat.le_refl _
  | typeMessage m => exact Nat.le_refl _
  | createNode =>
    show s.counter ≤ (createMessageNode s).counter
    unfold createMessageNode
    split_ifs <;> simp
  | updateNode => exact le_of_eq (updateSelectedNode_frame s).2.symm
  | deleteNode => exact le_of_eq (deleteSelectedNode_counter s).symm
  | deleteEdge => exact le_of_eq (deleteSelectedEdge_frame s).2.symm
  | clearAll => exact absurd rfl h
  | save => exact le_of_eq (congrArg AppState.counter (saveChanges_fst s)).symm
  | cancel => exact Nat.le_refl _
  | togglePanel => exact Nat.le_refl _

lemma areAllNodesConnected_iff (s : AppState) :
    areAllNodesConnected s = true ↔
      (s.nodes.length ≤ 1 ∨
        ∀ n ∈ s.nodes, ∃ e ∈ s.edges, e.source = n.id ∨ e.target = n.id) := by
  unfold areAllNodesConnected
  by_cases h : s.nodes.length ≤ 1
  · simp [h]
  · simp [h, List.all_eq_true, mem_connectedNodeIds]

lemma length_filter_not_add {α : Type} (p : α → Bool) (l : List α) :
    (l.filter fun a => !(p a)).length + (l.filter p).length = l.length := by
  induction l with
  | nil => rfl
  | cons a t ih =>
    cases h : p a <;> simp [List.filter_cons, h] <;> omega

lemma filter_id_eq_one :
    ∀ (nodes : List NodeRec) (X : String), (nodes.map NodeRec.id).Nodup →
      X ∈ nodes.map NodeRec.id →
      (nodes.filter fun n => n.id == X).length = 1 := by
  intro nodes
  induction nodes with
  | nil => intro X _ hmem; simp at hmem
  | cons n t ih =>
    intro X hnd hmem
    simp only [List.map_cons, List.nodup_cons] at hnd
    obtain ⟨hnin, hndt⟩ := hnd
    rcases List.mem_cons.mp hmem with heq | hX
    · have htz : (t.filter fun m => m.id == X) = [] := by
        rw [List.filter_eq_nil_iff]
        intro m hm
        simp only [beq_iff_eq]
        intro hid
        apply hnin
        rw [← heq, ← hid]
        exact List.mem_map_of_mem NodeRec.id hm
      rw [List.filter_cons, if_pos (by simp [heq] : ((n.id == X) = true)), htz]
      rfl
    · have hne : ¬ ((n.id == X) = true) := by
        simp only [beq_iff_eq]
        intro hid
        exact hnin (hid ▸ hX)
      rw [List.filter_cons, if_neg hne]
      exact ih X hndt hX

lemma filter_not_id_length {nodes : List NodeRec} {X : String}
    (hnd : (nodes.map NodeRec.id).Nodup) (hmem : X ∈ nodes.map NodeRec.id) :
    (nodes.filter fun n => !(n.id == X)).length = nodes.length - 1 := by
  have h1 := length_filter_not_add (fun n => n.id == X) nodes
  have h2 := filter_id_eq_one nodes X hnd hmem
  omega

lemma delete_edges_length (edges : List Edge) (X : String) :
    (edges.filter fun e => !(e.source == X) && !(e.target == X)).length
      = edges.length
        - (edges.filter fun e => e.source == X || e.target == X).length := by
  have hcongr : (edges.filter fun e => !(e.source == X) && !(e.target == X))
      = edges.filter fun e => !(e.source == X || e.target == X) := by
    apply List.filter_congr
    intro e _
    cases h1 : e.source == X <;> cases h2 : e.target == X <;> simp [h1, h2]
  rw [hcongr]
  have := length_filter_not_add (fun e => e.source == X || e.target == X) edges
  omega

end Lemmas

/-- C1: starting from a graph whose edge set is acyclic, any sequence of
`onConnect` calls (rejected calls leave the graph unchanged, accepted calls
commit a new edge) leaves the edge set acyclic: there is never a directed
path from a node back to itself through one or more edges. -/
theorem claim_C1_acyclicity (s : AppState) (cs : List Connection)
    (h : Acyclic s.edges) : Acyclic (applyConnects s cs).edges := by
  induction cs generalizing s with
  | nil => exact h
  | cons c rest ih =>
    exact ih (onConnect s c).1 (onConnect_preserves_acyclic s c h)

/-- C1 witness: from the initial state, connecting 1→2 and then attempting
2→1 leaves an acyclic edge set. -/
theorem claim_C1_witness :
    Acyclic (applyConnects initialState
      [⟨"1", none, "2", none⟩, ⟨"2", none, "1", none⟩]).edges :=
  claim_C1_acyclicity initialState _ (by
    intro x y hstep _
    rcases hstep with ⟨e, he, _⟩
    exact absurd he (List.not_mem_nil e))

/-- C2 counterexample: `onConnect` never consults the node set, so a
candidate whose endpoints "2" and "3" are not node ids of the
single-node initial graph is accepted and the edge set changes — the
claimed `UnknownEndpoint` rejection (with the graph left unchanged) does
not happen. -/
theorem claim_C2_counterexample :
    "2" ∉ initialState.nodes.map NodeRec.id ∧
    "3" ∉ initialState.nodes.map NodeRec.id ∧
    (onConnect initialState ⟨"2", none, "3", none⟩).2
      = ConnectResult.accepted ∧
    (onConnect initialState ⟨"2", none, "3", none⟩).1.edges
      ≠ initialState.edges := by
  refine ⟨by decide, by decide, by decide, by decide⟩

/-- C2 (amended): the checks run in order, short-circuiting on the first
failure — (1) a null/empty endpoint id rejects silently, otherwise (2) a
self-loop rejects with SelfLoop, otherwise (3) an existing edge with the
same `(sourceNodeId, sourceHandleId)` rejects with HandleAlreadyConnected,
otherwise (4) an existing path target→source rejects with WouldCreateCycle
— and every rejection leaves the whole state unchanged.  Endpoint
existence in the node set is not checked. -/
theorem claim_C2_validation_order (s : AppState) (c : Connection) :
    ((onConnect s c).2 ≠ ConnectResult.accepted → (onConnect s c).1 = s) ∧
    ((onConnect s c).2 = ConnectResult.rejectedSilent ↔
      (c.source = "" ∨ c.target = "")) ∧
    ((onConnect s c).2 = ConnectResult.selfLoop ↔
      ¬ (c.source = "" ∨ c.target = "") ∧ c.source = c.target) ∧
    ((onConnect s c).2 = ConnectResult.handleAlreadyConnected ↔
      ¬ (c.source = "" ∨ c.target = "") ∧ c.source ≠ c.target ∧
        ∃ e ∈ s.edges, e.source = c.source ∧ e.sourceHandle = c.sourceHandle) ∧
    ((onConnect s c).2 = ConnectResult.wouldCycle ↔
      ¬ (c.source = "" ∨ c.target = "") ∧ c.source ≠ c.target ∧
        ¬ (∃ e ∈ s.edges, e.source = c.source ∧
            e.sourceHandle = c.sourceHandle) ∧
        Reach s.edges c.target c.source) := by
  refine ⟨?_, onConnect_silent_iff s c, onConnect_selfLoop_iff s c,
    onConnect_handle_iff s c, onConnect_wouldCycle_iff s c⟩
  intro hne
  rcases onConnect_accepted_or_frame s c with hacc | hfr
  · exact absurd hacc hne
  · exact hfr

/-- C2 witness: the self-loop candidate 1→1 is rejected and leaves the
initial state unchanged. -/
theorem claim_C2_witness :
    (onConnect initialState ⟨"1", none, "1", none⟩).2
      ≠ ConnectResult.accepted ∧
    (onConnect initialState ⟨"1", none, "1", none⟩).1 = initialState :=
  ⟨by decide,
   (claim_C2_validation_order initialState ⟨"1", none, "1", none⟩).1
     (by decide)⟩

/-- C3: `wouldCreateCycle(S, T)` returns true iff a directed path of zero
or more existing edges leads from T to S (so including T = S), evaluated on
the pre-candidate edge set; and a candidate that passes the earlier checks
is rejected with WouldCycle exactly when such a path exists. -/
theorem claim_C3_cycle_check (s : AppState) (c : Connection) :
    (wouldCreateCycle s.edges c.source c.target = true ↔
      Reach s.edges c.target c.source) ∧
    (c.source ≠ "" → c.target ≠ "" → c.source ≠ c.target →
      ¬ (∃ e ∈ s.edges, e.source = c.source ∧
          e.sourceHandle = c.sourceHandle) →
      ((onConnect s c).2 = ConnectResult.wouldCycle ↔
        Reach s.edges c.target c.source)) := by
  refine ⟨wouldCreateCycle_iff_reach _ _ _, ?_⟩
  intro h1 h2 h3 h4
  rw [onConnect_wouldCycle_iff]
  constructor
  · exact fun h => h.2.2.2
  · intro h
    refine ⟨?_, h3, h4, h⟩
    rintro (hc | hc)
    · exact h1 hc
    · exact h2 hc

/-- C3 witness: on the graph with the single edge 2→3, the candidate 3→2
is rejected as a cycle, because 2 reaches 3. -/
theorem claim_C3_witness :
    (onConnect stChain ⟨"3", none, "2", none⟩).2 = ConnectResult.wouldCycle :=
  ((claim_C3_cycle_check stChain ⟨"3", none, "2", none⟩).2
      (by decide) (by decide) (by decide) (by decide)).mpr
    (Relation.ReflTransGen.single ⟨e23, List.mem_singleton_self e23, rfl, rfl⟩)

/-- C4: `saveChanges` reports success iff `areAllNodesConnected` holds on
the current graph, and a blocked save leaves nodes, edges and the id
allocator unchanged. -/
theorem claim_C4_save_gate (s : AppState) :
    ((saveChanges s).2 = SaveResult.saved ↔ areAllNodesConnected s = true) ∧
    ((saveChanges s).2 = SaveResult.blocked →
      (saveChanges s).1.nodes = s.nodes ∧
      (saveChanges s).1.edges = s.edges ∧
      (saveChanges s).1.counter = s.counter) := by
  constructor
  · unfold saveChanges
    split_ifs with h
    · simp [h]
    · simp [h]
  · intro _
    have h := saveChanges_fst s
    exact ⟨congrArg AppState.nodes h, congrArg AppState.edges h,
      congrArg AppState.counter h⟩

/-- C4 witness: with two disconnected nodes the save is blocked and the
node list is untouched. -/
theorem claim_C4_witness :
    (saveChanges stTwoLoose).2 = SaveResult.blocked ∧
    (saveChanges stTwoLoose).1.nodes = stTwoLoose.nodes :=
  ⟨by decide, ((claim_C4_save_gate stTwoLoose).2 (by decide)).1⟩

/-- C5: `areAllNodesConnected` returns true iff the graph has at most one
node, or every node id appears as the source or the target of at least one
edge. -/
theorem claim_C5_connectivity_def (s : AppState) :
    areAllNodesConnected s = true ↔
      (s.nodes.length ≤ 1 ∨
        ∀ n ∈ s.nodes, ∃ e ∈ s.edges, e.source = n.id ∨ e.target = n.id) :=
  areAllNodesConnected_iff s

/-- C6: starting from a state whose edge set satisfies the fan-out bound,
every sequence of intents preserves it — every `(sourceNodeId,
sourceHandleId)` pair has at most one edge — and a candidate whose source
pair is already taken (after passing the earlier checks) is rejected with
HandleAlreadyConnected, changing nothing. -/
theorem claim_C6_fanout (s : AppState) (l : List Intent)
    (h : FanOut s.edges) :
    FanOut (applyIntents s l).edges ∧
    (∀ c : Connection, c.source ≠ "" → c.target ≠ "" → c.source ≠ c.target →
      (∃ e ∈ s.edges, e.source = c.source ∧
        e.sourceHandle = c.sourceHandle) →
      (onConnect s c).2 = ConnectResult.handleAlreadyConnected ∧
      (onConnect s c).1 = s) := by
  refine ⟨applyIntents_fanOut l s h, ?_⟩
  intro c h1 h2 h3 hex
  have hh : (onConnect s c).2 = ConnectResult.handleAlreadyConnected := by
    rw [onConnect_handle_iff]
    refine ⟨?_, h3, hex⟩
    rintro (hc | hc)
    · exact h1 hc
    · exact h2 hc
  refine ⟨hh, ?_⟩
  rcases onConnect_accepted_or_frame s c with hacc | hfr
  · rw [hh] at hacc
    cases hacc
  · exact hfr

/-- C6 witness: on the graph with edge 2→3, the candidate 2→3 reusing the
same source handle is rejected with HandleAlreadyConnected and the state
is unchanged. -/
theorem claim_C6_witness :
    (onConnect stChain ⟨"2", none, "3", none⟩).2
      = ConnectResult.handleAlreadyConnected ∧
    (onConnect stChain ⟨"2", none, "3", none⟩).1 = stChain :=
  (claim_C6_fanout stChain []
      (by intro src hh; exact singleton_filter_length_le _ _)).2
    ⟨"2", none, "3", none⟩ (by decide) (by decide) (by decide)
    ⟨e23, List.mem_singleton_self e23, rfl, rfl⟩

/-- C7 counterexample: the claim as stated quantifies over every graph
containing a node X, but at a node whose id is the empty string the falsy
guard `if (!selectedNodeId) return` makes deletion a no-op: the node stays
and the node count does not drop by one. -/
theorem claim_C7_counterexample :
    "" ∈ stEmptySel.nodes.map NodeRec.id ∧
    stEmptySel.selectedNodeId = some "" ∧
    deleteSelectedNode stEmptySel = stEmptySel ∧
    (deleteSelectedNode stEmptySel).nodes.length
      ≠ stEmptySel.nodes.length - 1 := by
  refine ⟨by decide, rfl, by decide, by decide⟩

/-- C7 (amended): when node X is selected, its id is non-empty (every id
the allocator creates is a non-empty decimal numeral, so this holds in all
reachable states) and node ids are distinct, deleting it removes exactly X
from the node list and exactly the edges whose source or target is X from
the edge list, in one commit; the node count drops by one and the edge
count by the number of incident edges. -/
theorem claim_C7_cascade_delete (s : AppState) (X : String)
    (hsel : s.selectedNodeId = some X)
    (hne : X ≠ "")
    (hmem : X ∈ s.nodes.map NodeRec.id)
    (hnd : (s.nodes.map NodeRec.id).Nodup) :
    (∀ n, n ∈ (deleteSelectedNode s).nodes ↔ n ∈ s.nodes ∧ n.id ≠ X) ∧
    (∀ e, e ∈ (deleteSelectedNode s).edges ↔
      e ∈ s.edges ∧ e.source ≠ X ∧ e.target ≠ X) ∧
    (deleteSelectedNode s).nodes.length = s.nodes.length - 1 ∧
    (deleteSelectedNode s).edges.length
      = s.edges.length
        - (s.edges.filter fun e => e.source == X || e.target == X).length := by
  have hred : deleteSelectedNode s
      = { s with
          nodes := s.nodes.filter fun n => !(n.id == X),
          edges := s.edges.filter fun e =>
            !(e.source == X) && !(e.target == X),
          selectedNodeId := none, showSettings := false,
          messageText := "" } := by
    rw [deleteSelectedNode_some s X hsel, if_neg hne]
  rw [hred]
  refine ⟨?_, ?_, ?_, ?_⟩
  · intro n
    simp [List.mem_filter]
  · intro e
    simp [List.mem_filter]
  · exact filter_not_id_length hnd hmem
  · exact delete_edges_length s.edges X

/-- C7 witness: deleting the selected node "3" from the 2→3 chain drops
the node count from 2 to 1 and removes the single incident edge. -/
theorem claim_C7_witness :
    (deleteSelectedNode stDel).nodes.length = stDel.nodes.length - 1 ∧
    (deleteSelectedNode stDel).edges.length
      = stDel.edges.length
        - (stDel.edges.filter fun e =>
            e.source == "3" || e.target == "3").length :=
  ⟨(claim_C7_cascade_delete stDel "3" rfl (by decide) (by decide)
      (by decide)).2.2.1,
   (claim_C7_cascade_delete stDel "3" rfl (by decide) (by decide)
      (by decide)).2.2.2⟩

/-- C8: from any state satisfying the id invariant (in particular the
initial state), every sequence of intents keeps all node ids pairwise
distinct; the allocator counter never decreases under any intent other
than clear-all, and clear-all resets it to its default value 2. -/
theorem claim_C8_ids (s : AppState) (l : List Intent) (h : GoodIds s) :
    ((applyIntents s l).nodes.map NodeRec.id).Nodup ∧
    (∀ (s' : AppState) (i : Intent), i ≠ Intent.clearAll →
      s'.counter ≤ (applyIntent s' i).counter) ∧
    (∀ s' : AppState, (applyIntent s' Intent.clearAll).counter = 2) :=
  ⟨(applyIntents_goodIds l s h).1,
   fun s' i hi => applyIntent_counter_mono s' i hi,
   fun _ => rfl⟩

/-- C8 witness: creating a node, clearing all, and creating another node
from the initial state leaves all node ids distinct. -/
theorem claim_C8_witness :
    ((applyIntents initialState
      [Intent.typeMessage "hi", Intent.createNode, Intent.clearAll,
       Intent.typeMessage "yo", Intent.createNode]).nodes.map
        NodeRec.id).Nodup :=
  (claim_C8_ids initialState _ goodIds_initial).1

/-- C9: the depth-first search terminates on every finite edge set — the
visited set prevents re-expanding a node, so the recursion stabilises: any
fuel of at least `edges.length + 2` produces the same result (boolean and
visited set) as the chosen bound, and that boolean is `wouldCreateCycle`. -/
theorem claim_C9_termination (edges : List Edge) (s t : String) (fuel : Nat)
    (h : edges.length + 2 ≤ fuel) :
    hasPathVisit edges fuel t s ∅
      = hasPathVisit edges (edges.length + 2) t s ∅ ∧
    (hasPathVisit edges fuel t s ∅).1 = wouldCreateCycle edges s t := by
  have hst := @hasPathVisit_fuel_stable edges t s fuel h
  exact ⟨hst, by rw [hst]; rfl⟩

/-- C9 witness: with no edges, fuel 5 and the minimal fuel 2 agree. -/
theorem claim_C9_witness :
    hasPathVisit [] 5 "b" "a" ∅ = hasPathVisit [] 2 "b" "a" ∅ :=
  (claim_C9_termination [] "a" "b" 5 (by decide)).1

/-- C10: `saveChanges` never mutates the state — whatever the outcome, the
returned state is the input state, so the node list, edge list, allocator
and both selections are untouched; its only effect is the outcome
message. -/
theorem claim_C10_save_frame (s : AppState) :
    (saveChanges s).1 = s ∧
    (saveChanges s).1.nodes = s.nodes ∧
    (saveChanges s).1.edges = s.edges ∧
    (saveChanges s).1.counter = s.counter ∧
    (saveChanges s).1.selectedNodeId = s.selectedNodeId ∧
    (saveChanges s).1.selectedEdgeId = s.selectedEdgeId := by
  have h := saveChanges_fst s
  exact ⟨h, congrArg AppState.nodes h, congrArg AppState.edges h,
    congrArg AppState.counter h, congrArg AppState.selectedNodeId h,
    congrArg AppState.selectedEdgeId h⟩

end FlowGraph
